import Mathlib

/-!
Shallow embedding of the notioncli core (pagination engine, retry engine,
filter/property builders, markdown converter) and proofs about it.

Sources embedded:
  * lib/paginate.js   — paginate
  * lib/retry.js      — isRateLimitError, withRetry
  * lib/filters.js    — parseFilterOperator, resolveRelativeDate,
                        operatorToCondition, buildFilterFromSchema,
                        buildCompoundFilter
  * lib/format.js     — isValidIsoDate, buildPropValue
  * lib/markdown.js   — markdownToBlocks, parseInlineFormatting,
                        richTextToPlain, blocksToMarkdown

JavaScript strings are modelled as Lean strings handled code-point-wise
(the inputs of interest are ASCII); JS numbers produced by string
coercion are modelled by `JsNum` (NaN / signed infinity / a rational);
the ambient clock and time zone used by `new Date()` are explicit
parameters.
-/

namespace NotionCLI

/-! ### Platform model: JS whitespace, trim, string search, Number coercion -/

/-- ASCII whitespace as used by JS `trim` / `\s` (Unicode spaces other than
NBSP are not modelled; all inputs of interest are ASCII). -/
def jsWhitespace (c : Char) : Bool :=
  c = ' ' || c = '\t' || c = '\n' || c = '\r' || c = '\x0b' || c = '\x0c' || c = ' '

/-- JS `String.prototype.trim` on a char list. -/
def jsTrimList (cs : List Char) : List Char :=
  ((cs.dropWhile jsWhitespace).reverse.dropWhile jsWhitespace).reverse

/-- JS `String.prototype.trim`. -/
def jsTrim (s : String) : String :=
  String.mk (jsTrimList s.toList)

/-- Accumulating pass of `jsSplitChar`. -/
def splitOnCharAux (sep : Char) : List Char → List Char → List String
  | [], acc => [String.mk acc.reverse]
  | c :: rest, acc =>
    if c = sep then String.mk acc.reverse :: splitOnCharAux sep rest []
    else splitOnCharAux sep rest (c :: acc)

/-- JS `s.split(sep)` for a one-character separator
(`"".split(sep)` is `[""]`, a trailing separator yields a trailing `""`). -/
def jsSplitChar (sep : Char) (s : String) : List String :=
  splitOnCharAux sep s.toList []

/-- JS `Array.prototype.join('\n')`. -/
def joinNl : List String → String
  | [] => ""
  | [s] => s
  | s :: rest => s ++ "\n" ++ joinNl rest

/-- JS `s.toLowerCase()` (ASCII range; the keyword comparisons below only
involve ASCII). -/
def jsToLower (s : String) : String :=
  String.mk (s.toList.map Char.toLower)

/-- JS `s.startsWith(pre)`. -/
def jsStartsWith (s pre : String) : Bool :=
  List.isPrefixOf pre.toList s.toList

/-- First index (from `i`) at which `sub` occurs in `cs`; `none` when absent.
Models JS `String.prototype.indexOf` (which returns -1 when absent). -/
def jsIndexOfAux (sub : List Char) : List Char → Nat → Option Nat
  | cs, i =>
    if List.isPrefixOf sub cs then some i
    else
      match cs with
      | [] => none
      | _ :: t => jsIndexOfAux sub t (i + 1)

/-- JS `s.indexOf(sub)` with `none` standing for -1. -/
def jsIndexOf (s sub : String) : Option Nat :=
  jsIndexOfAux sub.toList s.toList 0

/-- A JS number obtained by coercing a string: NaN, ±Infinity or a rational. -/
inductive JsNum where
  | nan : JsNum
  | inf (neg : Bool) : JsNum
  | num (q : ℚ) : JsNum
deriving DecidableEq, Repr

/-- Value of a list of decimal digit characters. -/
def digitsToNat (ds : List Char) : Nat :=
  ds.foldl (fun a c => a * 10 + (c.toNat - '0'.toNat)) 0

/-- Hex digit value, if any. -/
def hexDigitVal (c : Char) : Option Nat :=
  if '0' ≤ c ∧ c ≤ '9' then some (c.toNat - '0'.toNat)
  else if 'a' ≤ c ∧ c ≤ 'f' then some (c.toNat - 'a'.toNat + 10)
  else if 'A' ≤ c ∧ c ≤ 'F' then some (c.toNat - 'A'.toNat + 10)
  else none

/-- Value of a digit list in base `b`, or `none` if the list is empty or a
character is not a digit of that base. -/
def radixVal (b : Nat) : List Char → Option Nat
  | [] => none
  | ds =>
    ds.foldl
      (fun a c =>
        match a, hexDigitVal c with
        | some v, some d => if d < b then some (v * b + d) else none
        | _, _ => none)
      (some 0)

/-- Optional exponent suffix of a JS decimal literal: given the mantissa,
consume `e`/`E`, an optional sign and at least one digit, requiring the
whole rest to be consumed. -/
def jsExpSuffix (m : ℚ) : List Char → Option ℚ
  | [] => some m
  | e :: rest =>
    if e = 'e' ∨ e = 'E' then
      let (neg, ds) :=
        match rest with
        | '+' :: t => (false, t)
        | '-' :: t => (true, t)
        | t => (false, t)
      if ds ≠ [] ∧ ds.all Char.isDigit then
        let n := digitsToNat ds
        some (if neg then m / (10 : ℚ) ^ n else m * (10 : ℚ) ^ n)
      else none
    else none

/-- Unsigned decimal part of JS string-to-number: `digits [. digits]` or
`. digits`, with an optional exponent; the whole list must be consumed. -/
def jsParseDec (cs : List Char) : Option ℚ :=
  let ip := cs.takeWhile Char.isDigit
  let rest := cs.dropWhile Char.isDigit
  match rest with
  | '.' :: rest2 =>
    let fp := rest2.takeWhile Char.isDigit
    let rest3 := rest2.dropWhile Char.isDigit
    if ip = [] ∧ fp = [] then none
    else
      let m : ℚ := (digitsToNat ip : ℚ) + (digitsToNat fp : ℚ) / (10 : ℚ) ^ fp.length
      jsExpSuffix m rest3
  | _ =>
    if ip = [] then none
    else jsExpSuffix (digitsToNat ip : ℚ) rest

/-- Model of ECMAScript ToNumber applied to a string (`Number(value)`):
trim, empty means 0, `0x`/`0o`/`0b` radix literals (no sign), otherwise an
optionally signed decimal or `Infinity`; anything else is NaN. -/
def jsStrToNumber (s : String) : JsNum :=
  let t := jsTrimList s.toList
  if t = [] then .num 0
  else
    match t with
    | '0' :: x :: rest =>
      if x = 'x' ∨ x = 'X' then
        match radixVal 16 rest with
        | some v => .num (v : ℚ)
        | none => .nan
      else if x = 'o' ∨ x = 'O' then
        match radixVal 8 rest with
        | some v => .num (v : ℚ)
        | none => .nan
      else if x = 'b' ∨ x = 'B' then
        match radixVal 2 rest with
        | some v => .num (v : ℚ)
        | none => .nan
      else
        match jsParseDec t with
        | some q => .num q
        | none => .nan
    | _ =>
      let (neg, body) :=
        match t with
        | '+' :: b => (false, b)
        | '-' :: b => (true, b)
        | b => (false, b)
      if body = "Infinity".toList then .inf neg
      else
        match jsParseDec body with
        | some q => .num (if neg then -q else q)
        | none => .nan

/-! ### lib/paginate.js — the pagination engine

`fetchPage` is modelled by the list of envelopes the upstream store hands
back, consumed in fetch order.  The `object` field carries the envelope's
residual shape (the fields other than `results`/`has_more`/`next_cursor`,
e.g. `object: 'list'`), so that which raw page the returned envelope is
built from is observable. -/

/-- One raw page envelope `{ results, has_more, next_cursor, ... }`. -/
structure PageEnv (α : Type) where
  results : List α
  has_more : Bool
  next_cursor : Option String
  object : String := "list"
deriving DecidableEq, Repr

/-- JS `res.next_cursor || null`: empty string and absence collapse to null. -/
def orNull (c : Option String) : Option String :=
  match c with
  | some s => if s = "" then none else some s
  | none => none

/-- State carried out of the while-loop of `paginate`. -/
structure LoopOut (α : Type) where
  results : List α
  truncated : Bool
  cursor : Option String
  base : Option (PageEnv α)
deriving DecidableEq, Repr

/-- The loop-top guard `remaining != null && remaining <= 0`. -/
def limitReached (limit : Option Nat) (acc : List α) : Bool :=
  match limit with
  | some l => decide (l ≤ acc.length)
  | none => false

/-- The while-loop of `paginate` (lib/paginate.js lines 21-55).  The loop is
entered only while `hasMore` is true, so `hasMore` is implicit: a recursive
call is made exactly when the fetched page reported `has_more`.  The `[]`
case totalises the model for an upstream that vanishes mid-run; a
well-formed run (last fetched page has `has_more = false`) never reaches it. -/
def pagLoop (limit : Option Nat) : List (PageEnv α) → List α → Option String →
    Option (PageEnv α) → LoopOut α
  | pages, acc, cursor, base =>
    if limitReached limit acc then ⟨acc, true, cursor, base⟩
    else
      match pages with
      | [] => ⟨acc, false, cursor, base⟩
      | res :: rest =>
        let base' := some (base.getD res)
        let pageResults := res.results
        let full : LoopOut α :=
          let acc' := acc ++ pageResults
          let cursor' := orNull res.next_cursor
          if (match limit with
              | some l => decide (l ≤ acc'.length)
              | none => false) && res.has_more then
            ⟨acc', true, cursor', base'⟩
          else if res.has_more then pagLoop limit rest acc' cursor' base'
          else ⟨acc', false, cursor', base'⟩
        match limit with
        | some l =>
          if pageResults.length ≠ 0 then
            let remaining := l - acc.length
            -- the source rechecks `remaining <= 0` here; unreachable after
            -- the loop-top guard, kept for fidelity
            if remaining = 0 then ⟨acc, true, cursor, base'⟩
            else if remaining < pageResults.length then
              ⟨acc ++ pageResults.take remaining, true, orNull res.next_cursor, base'⟩
            else full
          else full
        | none => full

/-- Value returned by `paginate` (lib/paginate.js lines 63-69). -/
structure PaginateResult (α : Type) where
  results : List α
  has_more : Bool
  next_cursor : Option String
  truncated : Bool
  response : PageEnv α
deriving DecidableEq, Repr

/-- `paginate(fetchPage, { limit })` with the upstream's successive page
envelopes given as `pages`.  A negative or non-numeric limit throws in the
source and is outside this model (`Option Nat`). -/
def paginate (pages : List (PageEnv α)) (limit : Option Nat) : PaginateResult α :=
  let o := pagLoop limit pages [] none none
  let finalHasMore := o.truncated
  let finalCursor := if o.truncated then o.cursor else none
  let base := o.base.getD { results := [], has_more := false, next_cursor := none }
  { results := o.results
    has_more := finalHasMore
    next_cursor := finalCursor
    truncated := o.truncated
    response :=
      { base with results := o.results, has_more := finalHasMore, next_cursor := finalCursor } }

/-- Total number of results offered by the upstream pages. -/
def totalLen (pages : List (PageEnv α)) : Nat :=
  (pages.map (fun p => p.results.length)).sum

/-- Concatenation of all upstream results, in order. -/
def allResults (pages : List (PageEnv α)) : List α :=
  pages.foldr (fun p acc => p.results ++ acc) []

/-- A well-formed upstream trace: the pages fetched while `has_more` was
true — every page except the last reports `has_more = true`, the last
reports `has_more = false`. -/
def wfPages : List (PageEnv α) → Bool
  | [] => false
  | [p] => !p.has_more
  | p :: rest => p.has_more && wfPages rest

/-- True when the running total never lands exactly on the limit `l` right
after a page that still reports `has_more = true` (`n` is the count already
accumulated).  When this fails, `paginate` stops at that boundary and
reports truncation even though the remaining pages may hold no results. -/
def noBoundaryHit (l : Nat) : Nat → List (PageEnv α) → Bool
  | _, [] => true
  | n, p :: rest =>
    if p.has_more then
      decide (n + p.results.length < l) && noBoundaryHit l (n + p.results.length) rest
    else true

/-! ### lib/retry.js — the retry engine

A thrown error is modelled by `Err`; the wrapped function `fn` by the
mapping from invocation index (0-based) to its outcome.  Delays are pure
waiting and do not affect values, so `sleep`/`calculateDelayMs` are not
modelled.  `withRetry` returns the final outcome (`none` for the
`return undefined` fall-through reached only when `maxAttempts = 0`)
together with the number of times `fn` was invoked. -/

/-- A thrown error value, as inspected by the retry engine. -/
structure Err where
  status : Option Int := none
  code : Option String := none
  message : String := ""
deriving DecidableEq, Repr

/-- lib/retry.js lines 7-10. -/
def isRateLimitError (e : Err) : Bool :=
  e.status = some 429 || e.code = some "rate_limited"

/-- The `for` loop of `withRetry` (lib/retry.js lines 49-65): `fuel` is the
number of loop iterations still permitted (`maxAttempts - attempt + 1`),
`calls` the number of invocations made so far (so the current attempt is
`calls + 1`). -/
def withRetryGo (fn : Nat → Except Err α) (maxAttempts : Nat) :
    Nat → Nat → Option (Except Err α) × Nat
  | 0, calls => (none, calls)
  | fuel + 1, calls =>
    match fn calls with
    | .ok v => (some (.ok v), calls + 1)
    | .error e =>
      if !isRateLimitError e || calls + 1 = maxAttempts then (some (.error e), calls + 1)
      else withRetryGo fn maxAttempts fuel (calls + 1)

/-- `withRetry(fn, { maxAttempts })` (lib/retry.js lines 39-68): the
outcome and the number of invocations of `fn`. -/
def withRetry (fn : Nat → Except Err α) (maxAttempts : Nat) :
    Option (Except Err α) × Nat :=
  withRetryGo fn maxAttempts maxAttempts 0

/-! ### Date model

`new Date()` / `new Date(y, m, d)` / `setDate` / `toISOString` are
modelled by day-number arithmetic: `todayLocal` is the current local
calendar date as a day count from 1970-01-01, `tz` the local offset east
of UTC in minutes (fixed; DST transitions are not modelled).
`toISOString` renders the UTC calendar date of an instant, and the
instant of local midnight of day `d` is `d*1440 - tz` minutes, hence the
rendered day number is `(d*1440 - tz).ediv 1440`. -/

/-- Day number of the UTC calendar date in which local midnight of local
day `d` falls (the date printed by `toISOString` for `new Date(y,m,dd)`). -/
def utcDayOfLocalMidnight (d tz : Int) : Int :=
  (d * 1440 - tz) / 1440

/-- Civil calendar date `(year, month, day)` of a day number (days since
1970-01-01, proleptic Gregorian). -/
def civilFromDays (z0 : Int) : Int × Int × Int :=
  let z := z0 + 719468
  let era := z / 146097
  let doe := z % 146097
  let yoe := (doe - doe / 1460 + doe / 36524 - doe / 146096) / 365
  let y := yoe + era * 400
  let doy := doe - (365 * yoe + yoe / 4 - yoe / 100)
  let mp := (5 * doy + 2) / 153
  let d := doy - (153 * mp + 2) / 5 + 1
  let m := mp + (if mp < 10 then 3 else -9)
  (y + (if m ≤ 2 then 1 else 0), m, d)

/-- Left-pad the decimal representation of a nonnegative integer to `w`
digits. -/
def padNum (w : Nat) (n : Int) : String :=
  let s := toString n.toNat
  String.mk (List.replicate (w - s.length) '0') ++ s

/-- The date half of `toISOString()` — `YYYY-MM-DD` of a day number
(years 0-9999; the source never leaves this range). -/
def formatIsoDate (z : Int) : String :=
  let c := civilFromDays z
  padNum 4 c.1 ++ "-" ++ padNum 2 c.2.1 ++ "-" ++ padNum 2 c.2.2

/-! ### lib/filters.js — operator parsing and filter building -/

/-- Result of `parseFilterOperator`. -/
inductive ParseResult where
  | ok (key operator value : String) : ParseResult
  | err (msg : String) : ParseResult
deriving DecidableEq, Repr

/-- Operator priority order (lib/filters.js line 10). -/
def opsList : List String := [">=", "<=", "!=", ">", "<", "="]

/-- The `for (const op of ops)` loop of `parseFilterOperator`. -/
def parseFilterOperatorGo (s : String) : List String → ParseResult
  | [] => .err s!"Invalid filter format: {s} (expected key=value, key>value, etc.)"
  | op :: rest =>
    match jsIndexOf s op with
    | some i =>
      if 0 < i then
        .ok (String.mk (s.toList.take i)) op (String.mk (s.toList.drop (i + op.length)))
      else parseFilterOperatorGo s rest
    | none => parseFilterOperatorGo s rest

/-- lib/filters.js lines 8-22. -/
def parseFilterOperator (s : String) : ParseResult :=
  parseFilterOperatorGo s opsList

/-- lib/filters.js lines 27-54: `resolveRelativeDate`, parameterised by the
current local day number and time-zone offset (east, minutes). -/
def resolveRelativeDate (todayLocal tz : Int) (value : String) : String :=
  let lower := jsToLower value
  let render (off : Int) : String := formatIsoDate (utcDayOfLocalMidnight (todayLocal + off) tz)
  if lower = "today" then render 0
  else if lower = "yesterday" then render (-1)
  else if lower = "tomorrow" then render 1
  else if lower = "last_week" ∨ lower = "last-week" then render (-7)
  else if lower = "next_week" ∨ lower = "next-week" then render 7
  else value

/-- The keyword table of `resolveRelativeDate`, as a day offset. -/
def kwOffset (lower : String) : Option Int :=
  if lower = "today" then some 0
  else if lower = "yesterday" then some (-1)
  else if lower = "tomorrow" then some 1
  else if lower = "last_week" ∨ lower = "last-week" then some (-7)
  else if lower = "next_week" ∨ lower = "next-week" then some 7
  else none

/-- A coerced filter value: the string as given, the result of `Number`,
or the checkbox boolean. -/
inductive JSVal where
  | str (s : String) : JSVal
  | numv (n : JsNum) : JSVal
  | boolv (b : Bool) : JSVal
deriving DecidableEq, Repr

/-- A filter condition `{ [filterType]: { key: value, ... } }` after the
`undefined`-cleanup pass. -/
structure Condition where
  typeKey : String
  entries : List (String × JSVal)
deriving DecidableEq, Repr

/-- lib/filters.js lines 101-104. -/
def getFilterType (type : String) : String := type

/-- lib/filters.js lines 107-127. -/
def getDefaultCondition (type : String) (value : JSVal) : Condition :=
  match type with
  | "title" => ⟨type, [("contains", value)]⟩
  | "rich_text" => ⟨type, [("contains", value)]⟩
  | "select" => ⟨"select", [("equals", value)]⟩
  | "multi_select" => ⟨"multi_select", [("contains", value)]⟩
  | "number" => ⟨"number", [("equals", value)]⟩
  | "checkbox" => ⟨"checkbox", [("equals", value)]⟩
  | "date" => ⟨"date", [("equals", value)]⟩
  | "status" => ⟨"status", [("equals", value)]⟩
  | _ => ⟨type, [("equals", value)]⟩

/-- lib/filters.js lines 130-151. -/
def getNotEqualCondition (type : String) (value : JSVal) : Condition :=
  match type with
  | "title" => ⟨type, [("does_not_contain", value)]⟩
  | "rich_text" => ⟨type, [("does_not_contain", value)]⟩
  | "select" => ⟨"select", [("does_not_equal", value)]⟩
  | "multi_select" => ⟨"multi_select", [("does_not_contain", value)]⟩
  | "number" => ⟨"number", [("does_not_equal", value)]⟩
  | "checkbox" => ⟨"checkbox", [("does_not_equal", value)]⟩
  | "date" => ⟨"date", [("does_not_equal", value)]⟩
  | "status" => ⟨"status", [("does_not_equal", value)]⟩
  | _ => ⟨type, [("does_not_equal", value)]⟩

/-- lib/filters.js lines 59-98: coerce the value by schema type, then map
the operator through the condition table.  The source writes both the date
key (`after`, …) and the generic key (`greater_than`, …) with one of them
`undefined` and then deletes `undefined` entries; the surviving entry is
built directly here. -/
def operatorToCondition (todayLocal tz : Int) (type operator : String) (value0 : String) :
    Option Condition :=
  let value : JSVal :=
    if type = "date" then .str (resolveRelativeDate todayLocal tz value0)
    else if type = "number" then .numv (jsStrToNumber value0)
    else if type = "checkbox" then .boolv (value0 = "true" || value0 = "1" || value0 = "yes")
    else .str value0
  match operator with
  | "=" => some (getDefaultCondition type value)
  | "!=" => some (getNotEqualCondition type value)
  | ">" =>
    some ⟨getFilterType type, if type = "date" then [("after", value)] else [("greater_than", value)]⟩
  | "<" =>
    some ⟨getFilterType type, if type = "date" then [("before", value)] else [("less_than", value)]⟩
  | ">=" =>
    some ⟨getFilterType type,
      if type = "date" then [("on_or_after", value)] else [("greater_than_or_equal_to", value)]⟩
  | "<=" =>
    some ⟨getFilterType type,
      if type = "date" then [("on_or_before", value)] else [("less_than_or_equal_to", value)]⟩
  | _ => none

/-- One schema entry `{ type, name }`, keyed in the schema map by the
lowercased display name. -/
structure SchemaEntry where
  type : String
  name : String
deriving DecidableEq, Repr

/-- The schema map, in declaration order. -/
def Schema := List (String × SchemaEntry)

/-- `schema[key]` lookup. -/
def schemaLookup (schema : Schema) (k : String) : Option SchemaEntry :=
  (schema.find? (fun e => e.1 = k)).map (fun e => e.2)

/-- `Object.values(schema).map(s => s.name)`. -/
def schemaNames (schema : Schema) : List String :=
  schema.map (fun e => e.2.name)

/-- A single-property filter `{ property, [type]: {...} }`. -/
structure PropFilter where
  property : String
  cond : Condition
deriving DecidableEq, Repr

/-- Result of `buildFilterFromSchema`: `{filter}` or `{error, available?}`. -/
inductive BuildResult where
  | ok (filter : PropFilter) : BuildResult
  | err (msg : String) (available : Option (List String)) : BuildResult
deriving DecidableEq, Repr

/-- lib/filters.js lines 158-180. -/
def buildFilterFromSchema (todayLocal tz : Int) (schema : Schema) (filterStr : String) :
    BuildResult :=
  match parseFilterOperator filterStr with
  | .err m => .err m none
  | .ok key operator value =>
    match schemaLookup schema (jsToLower key) with
    | none =>
      .err s!"Filter property \x22{key}\x22 not found in database schema."
        (some (schemaNames schema))
    | some entry =>
      match operatorToCondition todayLocal tz entry.type operator value with
      | none =>
        let t := entry.type
        .err s!"Operator \x22{operator}\x22 not supported for type \x22{t}\x22" none
      | some cond => .ok ⟨entry.name, cond⟩

/-- Result of `buildCompoundFilter`: a single condition, an `and` array of
conditions in input order, or the first error. -/
inductive CompoundResult where
  | single (f : PropFilter) : CompoundResult
  | andF (fs : List PropFilter) : CompoundResult
  | err (msg : String) (available : Option (List String)) : CompoundResult
deriving DecidableEq, Repr

/-- The `for (const f of filterStrs)` loop of `buildCompoundFilter`. -/
def buildCompoundGo (todayLocal tz : Int) (schema : Schema) :
    List String → List PropFilter → CompoundResult
  | [], acc => .andF acc
  | f :: rest, acc =>
    match buildFilterFromSchema todayLocal tz schema f with
    | .err m a => .err m a
    | .ok pf => buildCompoundGo todayLocal tz schema rest (acc ++ [pf])

/-- lib/filters.js lines 186-202. -/
def buildCompoundFilter (todayLocal tz : Int) (schema : Schema) (filterStrs : List String) :
    CompoundResult :=
  match filterStrs with
  | [] => .err "No filters provided" none
  | [f] =>
    match buildFilterFromSchema todayLocal tz schema f with
    | .err m a => .err m a
    | .ok pf => .single pf
  | fs => buildCompoundGo todayLocal tz schema fs []

/-! ### lib/format.js — ISO date validation and property value building -/

/-- `ISO_DATE_ONLY_REGEX` (`^\d{4}-\d{2}-\d{2}$`): the matched
`(year, month, day)` components, or `none`. -/
def matchDateOnly : List Char → Option (Nat × Nat × Nat)
  | [a, b, c, d, '-', e, f, '-', g, h] =>
    if [a, b, c, d, e, f, g, h].all Char.isDigit then
      some (digitsToNat [a, b, c, d], digitsToNat [e, f], digitsToNat [g, h])
    else none
  | _ => none

/-- Leap year (Gregorian). -/
def isLeapYear (y : Nat) : Bool :=
  (y % 4 = 0 && y % 100 ≠ 0) || y % 400 = 0

/-- Days in a month (month 1-12). -/
def daysInMonth (y m : Nat) : Nat :=
  if m = 2 then (if isLeapYear y then 29 else 28)
  else if m = 4 ∨ m = 6 ∨ m = 9 ∨ m = 11 then 30
  else 31

/-- A real calendar date, as checked by `new Date(value)` plus the
component round-trip in `isValidIsoDate`. -/
def realCalendarDate (y m d : Nat) : Bool :=
  1 ≤ m && m ≤ 12 && 1 ≤ d && d ≤ daysInMonth y m

/-- Exactly two decimal digits. -/
def twoDigits : List Char → Option Nat
  | [a, b] => if a.isDigit && b.isDigit then some (digitsToNat [a, b]) else none
  | _ => none

/-- The time-zone designator of `ISO_DATE_TIME_REGEX`
(`Z` or `[+-]\d{2}:\d{2}`), with the semantic range check applied by
`new Date`: offset hours ≤ 23, minutes ≤ 59. -/
def matchZoneTail : List Char → Bool
  | ['Z'] => true
  | s :: a :: b :: ':' :: c :: d :: [] =>
    (s = '+' || s = '-') &&
      (match twoDigits [a, b], twoDigits [c, d] with
       | some hh, some mm => hh ≤ 23 && mm ≤ 59
       | _, _ => false)
  | _ => false

/-- The fractional-seconds-and-zone tail (`(?:\.\d+)?(?:Z|[+-]\d{2}:\d{2})`).
`hour24` records whether the hour field was `24`, in which case `new Date`
additionally requires the fraction to be all zeros. -/
def matchFracZone (hour24 : Bool) : List Char → Bool
  | '.' :: rest =>
    let ds := rest.takeWhile Char.isDigit
    ds ≠ [] && (!hour24 || ds.all (· = '0')) && matchZoneTail (rest.dropWhile Char.isDigit)
  | rest => matchZoneTail rest

/-- `ISO_DATE_TIME_REGEX` together with the `new Date(value)` semantic
check: a full ISO-8601 datetime with offset/`Z` whose components are in
range (hour 00-23, or 24:00:00 exactly; minute and second 00-59; and a
real calendar date). -/
def matchDateTimeValid : List Char → Bool
  | y1 :: y2 :: y3 :: y4 :: '-' :: m1 :: m2 :: '-' :: d1 :: d2 :: 'T' ::
      h1 :: h2 :: ':' :: mi1 :: mi2 :: ':' :: s1 :: s2 :: rest =>
    (match twoDigits [m1, m2], twoDigits [d1, d2], twoDigits [h1, h2],
        twoDigits [mi1, mi2], twoDigits [s1, s2] with
     | some mo, some dd, some hh, some mi, some ss =>
       [y1, y2, y3, y4].all Char.isDigit &&
         realCalendarDate (digitsToNat [y1, y2, y3, y4]) mo dd &&
         (hh ≤ 23 || (hh = 24 && mi = 0 && ss = 0)) && mi ≤ 59 && ss ≤ 59 &&
         matchFracZone (hh = 24) rest
     | _, _, _, _, _ => false)
  | _ => false

/-- lib/format.js lines 221-236: `isValidIsoDate` — the date-only regex
plus real-calendar-date round-trip, or the datetime regex plus a
successful `new Date` parse. -/
def isValidIsoDate (value : String) : Bool :=
  let cs := value.toList
  match matchDateOnly cs with
  | some (y, m, d) => realCalendarDate y m d
  | none => matchDateTimeValid cs

/-- The payload shape constructed by `buildPropValue` for each type
(`{title:[{text:{content}}]}`, `{number}`, `{multi_select:[{name},...]}`,
…); the `other` constructor is the `{[type]: value}` fall-through. -/
inductive PropShape where
  | title (content : String) : PropShape
  | richText (content : String) : PropShape
  | number (n : JsNum) : PropShape
  | select (name : String) : PropShape
  | multiSelect (names : List String) : PropShape
  | date (start : String) : PropShape
  | checkbox (b : Bool) : PropShape
  | url (u : String) : PropShape
  | email (e : String) : PropShape
  | phone (p : String) : PropShape
  | status (name : String) : PropShape
  | other (type : String) (raw : String) : PropShape
deriving DecidableEq, Repr

/-- Result of `buildPropValue`: a typed payload or `{ error }`. -/
inductive PropBuild where
  | payload (p : PropShape) : PropBuild
  | err (msg : String) : PropBuild
deriving DecidableEq, Repr

/-- lib/format.js lines 315-356: `buildPropValue(type, value)` with input
validation for number, date, url and email. -/
def buildPropValue (type value : String) : PropBuild :=
  match type with
  | "title" => .payload (.title value)
  | "rich_text" => .payload (.richText value)
  | "number" =>
    match jsStrToNumber value with
    | .nan => .err s!"Invalid number value: \x22{value}\x22"
    | n => .payload (.number n)
  | "select" => .payload (.select value)
  | "multi_select" =>
    .payload (.multiSelect ((jsSplitChar ',' value).map jsTrim))
  | "date" =>
    if isValidIsoDate value then .payload (.date value)
    else .err s!"Invalid date value: \x22{value}\x22 (expected YYYY-MM-DD or full ISO 8601)"
  | "checkbox" => .payload (.checkbox (value = "true" || value = "1" || value = "yes"))
  | "url" =>
    if !jsStartsWith value "http://" && !jsStartsWith value "https://" then
      .err s!"Invalid URL value: \x22{value}\x22 (expected http:// or https://)"
    else .payload (.url value)
  | "email" =>
    if !value.toList.contains '@' then
      .err s!"Invalid email value: \x22{value}\x22 (expected \x22@\x22 in address)"
    else .payload (.email value)
  | "phone_number" => .payload (.phone value)
  | "status" => .payload (.status value)
  | _ => .payload (.other type value)

/-! ### lib/markdown.js — markdown ⇄ blocks

Rich-text items are modelled with the union of the fields appearing in
parser output and in store-delivered rich text: parser-made items carry
their text in `text.content` (with an optional single annotation flag or a
link) and have no `plain_text`; items coming back from the store carry
`plain_text`. -/

/-- The `text` payload `{ content, link? }` of a rich-text item. -/
structure TextObj where
  content : String
  link : Option String := none
deriving DecidableEq, Repr

/-- The single annotation flag the inline parser can set
(`{bold: true}`, `{italic: true}` or `{code: true}`). -/
inductive AnnKind where
  | bold : AnnKind
  | italic : AnnKind
  | code : AnnKind
deriving DecidableEq, Repr

/-- One rich-text span. -/
structure RichTextItem where
  type : String := "text"
  text : Option TextObj := none
  annotations : Option AnnKind := none
  plain_text : Option String := none
deriving DecidableEq, Repr

/-- `{ type: 'text', text: { content } }`. -/
def plainItem (content : String) : RichTextItem :=
  { text := some ⟨content, none⟩ }

/-- `{ type: 'text', text: { content }, annotations: {flag: true} }`. -/
def annItem (content : String) (k : AnnKind) : RichTextItem :=
  { text := some ⟨content, none⟩, annotations := some k }

/-- `{ type: 'text', text: { content, link: { url } } }`. -/
def linkItem (content url : String) : RichTextItem :=
  { text := some ⟨content, some url⟩ }

/-- First index `≥ start` at which `sub` occurs in `cs`. -/
def firstSubIdxGe (sub cs : List Char) (start : Nat) : Option Nat :=
  (jsIndexOfAux sub (cs.drop start) 0).map (· + start)

/-- Lazy-match search for the link alternative `\[(.+?)\]\((.+?)\)`: scan
the characters after `[` for the first index `i ≥ 1` holding `](` such
that a `)` follows at least one character later; returns `(i, j)` with `j`
the lazy end of the url part. -/
def findLinkIn : List Char → Nat → Option (Nat × Nat)
  | [], _ => none
  | ']' :: '(' :: tail, i =>
    (match firstSubIdxGe [')'] tail 1 with
     | some j => some (i, j)
     | none => findLinkIn ('(' :: tail) (i + 1))
  | _ :: t, i => findLinkIn t (i + 1)

/-- One attempt of the inline regex
`(\*\*(.+?)\*\*|\*(.+?)\*|` + "`" + `(.+?)` + "`" + `|\[(.+?)\](\((.+?)\)))`
at the head of `cs`: alternatives are tried left to right, each `(.+?)`
lazily; returns the produced span and the remaining input. -/
def matchInlineAt (cs : List Char) : Option (RichTextItem × List Char) :=
  match cs with
  | '*' :: '*' :: rest =>
    (match firstSubIdxGe ['*', '*'] rest 1 with
     | some i => some (annItem (String.mk (rest.take i)) .bold, rest.drop (i + 2))
     | none =>
       -- the bold alternative failed; the italic alternative retries at
       -- the same position on `'*' :: '*' :: rest`
       match firstSubIdxGe ['*'] ('*' :: rest) 1 with
       | some i =>
         some (annItem (String.mk (('*' :: rest).take i)) .italic, ('*' :: rest).drop (i + 1))
       | none => none)
  | '*' :: rest =>
    (match firstSubIdxGe ['*'] rest 1 with
     | some i => some (annItem (String.mk (rest.take i)) .italic, rest.drop (i + 1))
     | none => none)
  | '`' :: rest =>
    (match firstSubIdxGe ['`'] rest 1 with
     | some i => some (annItem (String.mk (rest.take i)) .code, rest.drop (i + 1))
     | none => none)
  | '[' :: r0 :: rest =>
    (match findLinkIn rest 1 with
     | some (i, j) =>
       let body := r0 :: rest
       let tail := body.drop (i + 2)
       some (linkItem (String.mk (body.take i)) (String.mk (tail.take j)), tail.drop (j + 1))
     | none => none)
  | _ => none

/-- The `while ((match = regex.exec(text)))` sweep of
`parseInlineFormatting`: `acc` holds (reversed) plain characters seen
since the last match.  `fuel` bounds the recursion; each step consumes at
least one character, so `fuel = cs.length` never runs out. -/
def inlineGo : Nat → List Char → List Char → List RichTextItem
  | 0, cs, acc =>
    (match acc.reverse ++ cs with
     | [] => []
     | t => [plainItem (String.mk t)])
  | fuel + 1, cs, acc =>
    match cs with
    | [] =>
      (match acc.reverse with
       | [] => []
       | t => [plainItem (String.mk t)])
    | c :: rest =>
      match matchInlineAt cs with
      | some (seg, remainder) =>
        (match acc.reverse with
         | [] => []
         | t => [plainItem (String.mk t)]) ++ seg :: inlineGo fuel remainder []
      | none => inlineGo fuel rest (c :: acc)

/-- lib/markdown.js lines 494-535. -/
def parseInlineFormatting (text : String) : List RichTextItem :=
  let segs := inlineGo text.toList.length text.toList []
  if segs = [] then [plainItem text] else segs

/-- A block record `{ object: 'block', type, [type]: {...} }`, as a tagged
union (the payload key always equals the type tag). -/
inductive Block where
  | code (richText : List RichTextItem) (language : String) : Block
  | divider : Block
  | heading1 (richText : List RichTextItem) : Block
  | heading2 (richText : List RichTextItem) : Block
  | heading3 (richText : List RichTextItem) : Block
  | quote (richText : List RichTextItem) : Block
  | toDo (richText : List RichTextItem) (checked : Bool) : Block
  | bulleted (richText : List RichTextItem) : Block
  | numbered (richText : List RichTextItem) : Block
  | paragraph (richText : List RichTextItem) : Block
  | otherBlock (type : String) (richText : Option (List RichTextItem)) : Block
deriving DecidableEq, Repr

/-- `/^---+\s*$/.test(line) || /^\*\*\*+\s*$/.test(line)`. -/
def isDividerLine (cs : List Char) : Bool :=
  ((cs.takeWhile (· = '-')).length ≥ 3 && (cs.dropWhile (· = '-')).all jsWhitespace) ||
  ((cs.takeWhile (· = '*')).length ≥ 3 && (cs.dropWhile (· = '*')).all jsWhitespace)

/-- `/^[-*] /.test(line)`. -/
def isBulletLine : List Char → Bool
  | c :: ' ' :: _ => c = '-' || c = '*'
  | _ => false

/-- `/^\d+\.\s/`: when the line starts with digits, a dot and one
whitespace character, the line with that marker removed
(`line.replace(/^\d+\.\s/, '')`). -/
def numberedSplit (cs : List Char) : Option (List Char) :=
  match cs.takeWhile Char.isDigit, cs.dropWhile Char.isDigit with
  | [], _ => none
  | _ :: _, '.' :: w :: rest => if jsWhitespace w then some rest else none
  | _, _ => none

/-- The line loop of `markdownToBlocks` (lib/markdown.js lines 373-486),
with the branches in source order.  `fuel` bounds the recursion; every
iteration consumes at least one line, so `fuel = lines.length` never runs
out. -/
def mdGo : Nat → List String → List Block
  | 0, _ => []
  | fuel + 1, lines =>
    match lines with
    | [] => []
    | line :: rest =>
      let cs := line.toList
      let fence : List Char := ['`', '`', '`']
      if List.isPrefixOf fence cs then
        let langRaw := jsTrim (String.mk (cs.drop 3))
        let lang := if langRaw = "" then "plain text" else langRaw
        let codeLines := rest.takeWhile (fun l => !(List.isPrefixOf fence l.toList))
        let rest2 := (rest.dropWhile (fun l => !(List.isPrefixOf fence l.toList))).drop 1
        Block.code [{ text := some ⟨joinNl codeLines, none⟩ }] lang ::
          mdGo fuel rest2
      else if isDividerLine cs then Block.divider :: mdGo fuel rest
      else if List.isPrefixOf ['#', '#', '#', ' '] cs then
        Block.heading3 (parseInlineFormatting (String.mk (cs.drop 4))) :: mdGo fuel rest
      else if List.isPrefixOf ['#', '#', ' '] cs then
        Block.heading2 (parseInlineFormatting (String.mk (cs.drop 3))) :: mdGo fuel rest
      else if List.isPrefixOf ['#', ' '] cs then
        Block.heading1 (parseInlineFormatting (String.mk (cs.drop 2))) :: mdGo fuel rest
      else if List.isPrefixOf ['>', ' '] cs then
        Block.quote (parseInlineFormatting (String.mk (cs.drop 2))) :: mdGo fuel rest
      else if List.isPrefixOf ['-', ' ', '[', ' ', ']', ' '] cs ||
          List.isPrefixOf ['-', ' ', '[', 'x', ']', ' '] cs then
        Block.toDo (parseInlineFormatting (String.mk (cs.drop 6)))
          (List.isPrefixOf ['-', ' ', '[', 'x', ']', ' '] cs) :: mdGo fuel rest
      else if isBulletLine cs then
        Block.bulleted (parseInlineFormatting (String.mk (cs.drop 2))) :: mdGo fuel rest
      else if (numberedSplit cs).isSome then
        Block.numbered (parseInlineFormatting (String.mk ((numberedSplit cs).getD []))) ::
          mdGo fuel rest
      else if jsTrimList cs = [] then mdGo fuel rest
      else Block.paragraph (parseInlineFormatting line) :: mdGo fuel rest

/-- lib/markdown.js lines 368-489: `markdownToBlocks`. -/
def markdownToBlocks (md : String) : List Block :=
  let lines := jsSplitChar '\n' md
  mdGo lines.length lines

/-- lib/format.js lines 239-243: `richTextToPlain` — concatenation of the
`plain_text` field (empty when absent) of every span. -/
def richTextToPlain (rt : List RichTextItem) : String :=
  String.join (rt.map (fun r => r.plain_text.getD ""))

/-- The rich-text list carried by a block (`[]` for dividers and payloads
without one). -/
def blockRich : Block → List RichTextItem
  | .code rt _ => rt
  | .divider => []
  | .heading1 rt => rt
  | .heading2 rt => rt
  | .heading3 rt => rt
  | .quote rt => rt
  | .toDo rt _ => rt
  | .bulleted rt => rt
  | .numbered rt => rt
  | .paragraph rt => rt
  | .otherBlock _ rt => rt.getD []

/-- The markdown line(s) emitted for one block by `blocksToMarkdown`. -/
def blockLines : Block → List String
  | .heading1 rt => ["# " ++ richTextToPlain rt]
  | .heading2 rt => ["## " ++ richTextToPlain rt]
  | .heading3 rt => ["### " ++ richTextToPlain rt]
  | .paragraph rt => [richTextToPlain rt]
  | .bulleted rt => ["- " ++ richTextToPlain rt]
  | .numbered rt => ["1. " ++ richTextToPlain rt]
  | .toDo rt checked =>
    ["- [" ++ (if checked then "x" else " ") ++ "] " ++ richTextToPlain rt]
  | .quote rt => ["> " ++ richTextToPlain rt]
  | .code rt language => ["```" ++ language, richTextToPlain rt, "```"]
  | .divider => ["---"]
  | .otherBlock _ rt =>
    match rt with
    | some r => [richTextToPlain r]
    | none => []

/-- lib/markdown.js lines 540-588: `blocksToMarkdown`. -/
def blocksToMarkdown (blocks : List Block) : String :=
  joinNl (blocks.foldr (fun b acc => blockLines b ++ acc) [])

/-!
## Theorems

Helper lemmas come first, then one theorem per claim (with witnesses and
counterexamples where required).
-/

/-- Successful run of the retry loop: rate-limited failures on every
attempt before the last scheduled one, then a success. -/
theorem retryGo_ok_aux {α : Type} (fn : Nat → Except Err α) (m : Nat) (e : Nat → Err) (v : α) :
    ∀ fuel calls, calls + fuel = m → 1 ≤ fuel →
      (∀ i, i < m - 1 → fn i = .error (e i) ∧ isRateLimitError (e i) = true) →
      fn (m - 1) = .ok v →
      withRetryGo fn m fuel calls = (some (.ok v), m) := by
  intro fuel
  induction fuel with
  | zero => intro calls _ h1 _ _; omega
  | succ f ih =>
    intro calls hsum _ herr hok
    by_cases hf : f = 0
    · have hc : calls = m - 1 := by omega
      subst hc
      simp only [withRetryGo, hok]
      have h3 : m - 1 + 1 = m := by omega
      rw [h3]
    · have hlt : calls < m - 1 := by omega
      have h2 := herr calls hlt
      simp only [withRetryGo, h2.1, h2.2, Bool.not_true, Bool.false_or]
      rw [if_neg]
      · exact ih (calls + 1) (by omega) (by omega) herr hok
      · simp only [decide_eq_true_eq]
        omega

/-- Exhausting run of the retry loop: rate-limited failures on every
attempt. -/
theorem retryGo_err_aux {α : Type} (fn : Nat → Except Err α) (m : Nat) (e : Nat → Err) :
    ∀ fuel calls, calls + fuel = m → 1 ≤ fuel →
      (∀ i, i < m → fn i = .error (e i) ∧ isRateLimitError (e i) = true) →
      withRetryGo fn m fuel calls = ((some (.error (e (m - 1))) : Option (Except Err α)), m) := by
  intro fuel
  induction fuel with
  | zero => intro calls _ h1 _; omega
  | succ f ih =>
    intro calls hsum _ herr
    have h2 := herr calls (by omega)
    simp only [withRetryGo, h2.1, h2.2, Bool.not_true, Bool.false_or]
    by_cases hq : calls + 1 = m
    · rw [if_pos]
      · rw [← hq]
        simp only [Nat.add_sub_cancel]
      · simp only [decide_eq_true_eq]
        exact hq
    · rw [if_neg]
      · exact ih (calls + 1) (by omega) (by omega) herr
      · simp only [decide_eq_true_eq]
        exact hq

/-- C3: with at least one attempt allowed, `withRetry` (a) returns the
success value after exactly `maxAttempts` invocations when the function
fails with rate-limit-classified errors on every attempt but the last and
then succeeds; (b) re-throws the final error unchanged after exactly
`maxAttempts` invocations when every attempt fails with a rate-limit
error; and (c) re-throws a non-rate-limit error immediately, after exactly
one invocation. -/
theorem withRetry_boundary {α : Type} (m : Nat) (hm : 1 ≤ m) (fn : Nat → Except Err α)
    (e : Nat → Err) (v : α) :
    ((∀ i, i < m - 1 → fn i = .error (e i) ∧ isRateLimitError (e i) = true) →
      fn (m - 1) = .ok v →
      withRetry fn m = (some (.ok v), m)) ∧
    ((∀ i, i < m → fn i = .error (e i) ∧ isRateLimitError (e i) = true) →
      withRetry fn m = (some (.error (e (m - 1))), m)) ∧
    (∀ e0, fn 0 = .error e0 → isRateLimitError e0 = false →
      withRetry fn m = (some (.error e0), 1)) := by
  refine ⟨?_, ?_, ?_⟩
  · intro herr hok
    exact retryGo_ok_aux fn m e v m 0 (by omega) hm herr hok
  · intro herr
    exact retryGo_err_aux fn m e m 0 (by omega) hm herr
  · intro e0 h0 hnr
    obtain ⟨f, rfl⟩ : ∃ f, m = f + 1 := ⟨m - 1, by omega⟩
    simp only [withRetry, withRetryGo, h0, hnr, Bool.not_false, Bool.true_or, if_true]

/-- Witness for `withRetry_boundary`: two rate-limited failures then a
success with `maxAttempts = 3` returns the success after 3 calls. -/
theorem withRetry_boundary_witness :
    withRetry (fun i => if i < 2 then .error ⟨some 429, none, "rl"⟩ else .ok (7 : Nat)) 3 =
      (some (.ok 7), 3) := by
  refine (withRetry_boundary 3 (by omega) _ (fun _ => ⟨some 429, none, "rl"⟩) 7).1 ?_ ?_
  · intro i hi
    interval_cases i <;> exact ⟨rfl, rfl⟩
  · rfl

/-- C8: `markdownToBlocks` maps the concrete scenarios as specified: a
level-1 heading, two to-do blocks (checked before generic bullets, with
`checked` false then true), a fenced `js` code block with verbatim
content, and a paragraph line with three spans plain/bold/plain. -/
theorem markdownToBlocks_concrete_mapping :
    markdownToBlocks "# Title" = [Block.heading1 [plainItem "Title"]] ∧
    markdownToBlocks "- [ ] task\n- [x] done" =
      [Block.toDo [plainItem "task"] false, Block.toDo [plainItem "done"] true] ∧
    markdownToBlocks "```js\nconst x=1;\n```" = [Block.code [plainItem "const x=1;"] "js"] ∧
    parseInlineFormatting "Hello **bold** world" =
      [plainItem "Hello ", annItem "bold" AnnKind.bold, plainItem " world"] := by
  refine ⟨?_, ?_, ?_, ?_⟩ <;> decide

/-- The operator loop yields an error exactly when every candidate
operator's first occurrence is absent or at index 0. -/
theorem pfoGo_err_iff (s : String) (ops : List String) :
    (∃ m, parseFilterOperatorGo s ops = .err m) ↔
      ∀ op ∈ ops, ∀ i, jsIndexOf s op = some i → i = 0 := by
  induction ops with
  | nil => simp [parseFilterOperatorGo]
  | cons op rest ih =>
    simp only [parseFilterOperatorGo, List.forall_mem_cons]
    cases h : jsIndexOf s op with
    | none =>
      simp only [h]
      constructor
      · intro hex
        exact ⟨fun i hi => by simp at hi, (ih.mp hex)⟩
      · intro hyp
        exact ih.mpr hyp.2
    | some i =>
      by_cases hi : 0 < i
      · simp only [h, hi, if_pos]
        constructor
        · rintro ⟨m, hm⟩
          cases hm
        · intro hyp
          exact absurd (hyp.1 i rfl) (by omega)
      · have hz : i = 0 := by omega
        simp only [h, hi, if_neg, if_false]
        constructor
        · intro hex
          refine ⟨fun j hj => ?_, ih.mp hex⟩
          injection hj with hj
          omega
        · intro hyp
          exact ih.mpr hyp.2

/-- C4 (amended): `parseFilterOperator` tries the operators in the fixed
priority order `>=, <=, !=, >, <, =`; for each operator it takes the first
occurrence in the whole string and accepts it only when that first
occurrence's index is strictly positive (a first occurrence at index 0
rejects the operator entirely, even when the operator occurs again later);
the first accepted operator wins.  Hence a string whose *first* `>=`
occurrence is at index > 0 parses with operator `>=` (never as `>`
followed by `=value`), and similarly down the priority order; an error
results exactly when every operator's first occurrence is absent or at
index 0. -/
theorem parseFilterOperator_priority (s : String) :
    (∀ i, jsIndexOf s ">=" = some i → 0 < i →
      parseFilterOperator s =
        .ok (String.mk (s.toList.take i)) ">=" (String.mk (s.toList.drop (i + 2)))) ∧
    (∀ i, jsIndexOf s "<=" = some i → 0 < i →
      (∀ j, jsIndexOf s ">=" = some j → j = 0) →
      parseFilterOperator s =
        .ok (String.mk (s.toList.take i)) "<=" (String.mk (s.toList.drop (i + 2)))) ∧
    (∀ i, jsIndexOf s "!=" = some i → 0 < i →
      (∀ j, jsIndexOf s ">=" = some j → j = 0) →
      (∀ j, jsIndexOf s "<=" = some j → j = 0) →
      parseFilterOperator s =
        .ok (String.mk (s.toList.take i)) "!=" (String.mk (s.toList.drop (i + 2)))) ∧
    ((∃ m, parseFilterOperator s = .err m) ↔
      ∀ op ∈ opsList, ∀ i, jsIndexOf s op = some i → i = 0) := by
  refine ⟨?_, ?_, ?_, pfoGo_err_iff s opsList⟩
  · intro i h hi
    simp only [parseFilterOperator, opsList, parseFilterOperatorGo, h, hi, if_pos]
    rfl
  · intro i h hi hge
    have hge' : ∀ j, jsIndexOf s ">=" = some j → ¬ (0 < j) := fun j hj => by
      have := hge j hj; omega
    simp only [parseFilterOperator, opsList, parseFilterOperatorGo]
    cases hg : jsIndexOf s ">=" with
    | none => simp only [h, hi, if_pos]; rfl
    | some j =>
      have := hge' j hg
      simp only [this, if_neg, if_false, h, hi, if_pos]
      rfl
  · intro i h hi hge hle
    have hge' : ∀ j, jsIndexOf s ">=" = some j → ¬ (0 < j) := fun j hj => by
      have := hge j hj; omega
    have hle' : ∀ j, jsIndexOf s "<=" = some j → ¬ (0 < j) := fun j hj => by
      have := hle j hj; omega
    simp only [parseFilterOperator, opsList, parseFilterOperatorGo]
    cases hg : jsIndexOf s ">=" with
    | none =>
      cases hl : jsIndexOf s "<=" with
      | none => simp only [h, hi, if_pos]; rfl
      | some j =>
        have := hle' j hl
        simp only [this, if_neg, if_false, h, hi, if_pos]
        rfl
    | some j =>
      have hj := hge' j hg
      cases hl : jsIndexOf s "<=" with
      | none => simp only [hj, if_neg, if_false, h, hi, if_pos]; rfl
      | some j2 =>
        have hj2 := hle' j2 hl
        simp only [hj, hj2, if_neg, if_false, h, hi, if_pos]
        rfl

/-- Witness for `parseFilterOperator_priority`: `Count>=10` splits as
`(Count, >=, 10)`. -/
theorem parseFilterOperator_priority_witness :
    parseFilterOperator "Count>=10" = .ok "Count" ">=" "10" := by
  have h := (parseFilterOperator_priority "Count>=10").1 5 (by decide) (by decide)
  exact h.trans (by decide)

/-- Counterexample to C4 as stated: `">=a>=b"` contains `>=` at index 3
(strictly positive), yet `parseFilterOperator` does not yield operator
`>=` — the first occurrence of `>=` is at index 0, which rejects `>=`
entirely, and the parse falls through to `=` at index 1. -/
theorem parseFilterOperator_ge_shadowed :
    parseFilterOperator ">=a>=b" = .ok ">" "=" "a>=b" ∧
    ((">=a>=b" : String).toList.drop 3).take 2 = ['>', '='] := by
  exact ⟨by decide, by decide⟩

/-- An operator produced by the operator loop is one of the candidates. -/
theorem pfoGo_ok_mem (s : String) (ops : List String) (k op v : String) :
    parseFilterOperatorGo s ops = .ok k op v → op ∈ ops := by
  induction ops with
  | nil => intro h; cases h
  | cons o rest ih =>
    intro h
    simp only [parseFilterOperatorGo] at h
    cases hg : jsIndexOf s o with
    | none =>
      simp only [hg] at h
      exact List.mem_cons_of_mem o (ih h)
    | some i =>
      simp only [hg] at h
      by_cases hi : 0 < i
      · rw [if_pos hi] at h
        injection h with h1 h2 h3
        rw [← h2]
        exact List.mem_cons_self o rest
      · rw [if_neg hi] at h
        exact List.mem_cons_of_mem o (ih h)

/-- C2 (amended): the six parsed operators always map to a condition —
`operatorToCondition` never returns `null`, so the
`Operator "…" not supported for type "…"` error in `buildFilterFromSchema`
is unreachable.  For the text-like types (title, rich_text, select,
multi_select, status) an ordering operator silently builds the generic
passthrough condition `{ [type]: { greater_than | less_than |
greater_than_or_equal_to | less_than_or_equal_to : value } }`, and for
checkbox the same with the boolean-coerced value; no error is produced.
Consequently, whenever the filter string parses and the property is found
in the schema, `buildFilterFromSchema` returns a filter. -/
theorem operatorToCondition_ordering_passthrough :
    (∀ (today tz : Int) (t op v : String), op ∈ opsList →
      (operatorToCondition today tz t op v).isSome = true) ∧
    (∀ t, t ∈ (["title", "rich_text", "select", "multi_select", "status"] : List String) →
      ∀ (today tz : Int) (v : String),
      operatorToCondition today tz t ">" v = some ⟨t, [("greater_than", .str v)]⟩ ∧
      operatorToCondition today tz t "<" v = some ⟨t, [("less_than", .str v)]⟩ ∧
      operatorToCondition today tz t ">=" v =
        some ⟨t, [("greater_than_or_equal_to", .str v)]⟩ ∧
      operatorToCondition today tz t "<=" v =
        some ⟨t, [("less_than_or_equal_to", .str v)]⟩) ∧
    (∀ (today tz : Int) (v : String),
      operatorToCondition today tz "checkbox" ">" v =
        some ⟨"checkbox", [("greater_than", .boolv (v = "true" || v = "1" || v = "yes"))]⟩) ∧
    (∀ (today tz : Int) (schema : Schema) (s k op v : String),
      parseFilterOperator s = .ok k op v →
      (schemaLookup schema (jsToLower k)).isSome = true →
      ∃ f, buildFilterFromSchema today tz schema s = .ok f) := by
  have hsome : ∀ (today tz : Int) (t op v : String), op ∈ opsList →
      (operatorToCondition today tz t op v).isSome = true := by
    intro today tz t op v hop
    fin_cases hop <;> simp [operatorToCondition]
  refine ⟨hsome, ?_, ?_, ?_⟩
  · intro t ht today tz v
    fin_cases ht <;> exact ⟨rfl, rfl, rfl, rfl⟩
  · intro today tz v
    rfl
  · intro today tz schema s k op v hparse hlook
    have hmem : op ∈ opsList := pfoGo_ok_mem s opsList k op v hparse
    obtain ⟨entry, hentry⟩ := Option.isSome_iff_exists.mp hlook
    obtain ⟨cond, hcond⟩ :=
      Option.isSome_iff_exists.mp (hsome today tz entry.type op v hmem)
    refine ⟨⟨entry.name, cond⟩, ?_⟩
    simp only [buildFilterFromSchema, hparse, hentry, hcond]

/-- Witness for `operatorToCondition_ordering_passthrough`: a `<` filter
on a select property silently builds `{select: {less_than: "Draft"}}`. -/
theorem operatorToCondition_ordering_witness :
    operatorToCondition 0 0 "select" "<" "Draft" =
      some ⟨"select", [("less_than", JSVal.str "Draft")]⟩ :=
  ((operatorToCondition_ordering_passthrough.2.1 "select" (by decide) 0 0 "Draft").2.1)

/-- Counterexample to C2 as stated: building `Name>x` against a schema in
which `Name` has type `title` yields a filter object (the generic
`greater_than` passthrough), not the claimed `{error}` naming the operator
and the type. -/
theorem buildFilter_title_gt_silent :
    buildFilterFromSchema 0 0 [("name", ⟨"title", "Name"⟩)] "Name>x" =
      .ok ⟨"Name", ⟨"title", [("greater_than", JSVal.str "x")]⟩⟩ := by
  decide

/-- `buildCompoundFilter` on two or more filters runs the accumulator loop
from the empty accumulator. -/
theorem buildCompoundFilter_cons2 (today tz : Int) (schema : Schema) (f1 f2 : String)
    (rest : List String) :
    buildCompoundFilter today tz schema (f1 :: f2 :: rest) =
      buildCompoundGo today tz schema (f1 :: f2 :: rest) [] := rfl

/-- When every element builds, the loop appends the built conditions in
input order. -/
theorem buildCompoundGo_all_ok (today tz : Int) (schema : Schema) :
    ∀ (fs : List String) (pfs : List PropFilter) (acc : List PropFilter),
      fs.map (buildFilterFromSchema today tz schema) = pfs.map BuildResult.ok →
      buildCompoundGo today tz schema fs acc = .andF (acc ++ pfs) := by
  intro fs
  induction fs with
  | nil =>
    intro pfs acc h
    cases pfs with
    | nil => simp [buildCompoundGo]
    | cons p pt => simp at h
  | cons f ft ih =>
    intro pfs acc h
    cases pfs with
    | nil => simp at h
    | cons p pt =>
      simp only [List.map_cons, List.cons.injEq] at h
      obtain ⟨h1, h2⟩ := h
      simp only [buildCompoundGo, h1]
      rw [ih pt (acc ++ [p]) h2]
      simp

/-- The loop stops at the first failing element and returns its error. -/
theorem buildCompoundGo_first_err (today tz : Int) (schema : Schema) (m : String)
    (av : Option (List String)) :
    ∀ (pre : List String) (bad : String) (post : List String) (acc : List PropFilter),
      (∀ f ∈ pre, ∃ pf, buildFilterFromSchema today tz schema f = .ok pf) →
      buildFilterFromSchema today tz schema bad = .err m av →
      buildCompoundGo today tz schema (pre ++ bad :: post) acc = .err m av := by
  intro pre
  induction pre with
  | nil =>
    intro bad post acc _ hbad
    simp only [List.nil_append, buildCompoundGo, hbad]
  | cons q qt ih =>
    intro bad post acc hok hbad
    obtain ⟨pf, hpf⟩ := hok q (List.mem_cons_self q qt)
    simp only [List.cons_append, buildCompoundGo, hpf]
    exact ih bad post (acc ++ [pf]) (fun f hf => hok f (List.mem_cons_of_mem q hf)) hbad

/-- C6: on two or more filter strings, `buildCompoundFilter` builds each
independently in input order and, when all succeed, wraps the resulting
conditions in an `and` container in the same order; when some element
fails, it returns exactly the first failing element's error (with its
available-names list when present) and never a partial `and`; a
single-element list delegates directly to `buildFilterFromSchema`. -/
theorem buildCompoundFilter_ordering (today tz : Int) (schema : Schema) :
    (∀ (f1 f2 : String) (rest : List String) (pfs : List PropFilter),
      (f1 :: f2 :: rest).map (buildFilterFromSchema today tz schema) =
        pfs.map BuildResult.ok →
      buildCompoundFilter today tz schema (f1 :: f2 :: rest) = .andF pfs) ∧
    (∀ (f1 f2 : String) (rest pre : List String) (bad : String) (post : List String)
        (m : String) (av : Option (List String)),
      f1 :: f2 :: rest = pre ++ bad :: post →
      (∀ f ∈ pre, ∃ pf, buildFilterFromSchema today tz schema f = .ok pf) →
      buildFilterFromSchema today tz schema bad = .err m av →
      buildCompoundFilter today tz schema (f1 :: f2 :: rest) = .err m av) ∧
    (∀ f pf, buildFilterFromSchema today tz schema f = .ok pf →
      buildCompoundFilter today tz schema [f] = .single pf) ∧
    (∀ f m a, buildFilterFromSchema today tz schema f = .err m a →
      buildCompoundFilter today tz schema [f] = .err m a) ∧
    buildCompoundFilter today tz schema [] = .err "No filters provided" none := by
  refine ⟨?_, ?_, fun f pf h => by simp only [buildCompoundFilter, h],
    fun f m a h => by simp only [buildCompoundFilter, h], rfl⟩
  · intro f1 f2 rest pfs h
    rw [buildCompoundFilter_cons2]
    rw [buildCompoundGo_all_ok today tz schema (f1 :: f2 :: rest) pfs [] h]
    simp
  · intro f1 f2 rest pre bad post m av hshape hok hbad
    rw [buildCompoundFilter_cons2, hshape]
    exact buildCompoundGo_first_err today tz schema m av pre bad post [] hok hbad

/-- Witness for `buildCompoundFilter_ordering`: two building filters yield
an ordered `and` array; the same list with a bogus second element yields
that element's parse error. -/
theorem buildCompoundFilter_ordering_witness :
    buildCompoundFilter 0 0 [("name", ⟨"title", "Name"⟩), ("count", ⟨"number", "Count"⟩)]
        ["Name=test", "Count>10"] =
      .andF [⟨"Name", ⟨"title", [("contains", JSVal.str "test")]⟩⟩,
        ⟨"Count", ⟨"number", [("greater_than", JSVal.numv (JsNum.num 10))]⟩⟩] ∧
    buildCompoundFilter 0 0 [("name", ⟨"title", "Name"⟩), ("count", ⟨"number", "Count"⟩)]
        ["Name=test", "bogus"] =
      .err "Invalid filter format: bogus (expected key=value, key>value, etc.)" none := by
  constructor
  · exact (buildCompoundFilter_ordering 0 0 _).1 "Name=test" "Count>10" [] _ (by decide)
  · refine (buildCompoundFilter_ordering 0 0 _).2.1 "Name=test" "bogus" [] ["Name=test"]
      "bogus" [] _ none rfl ?_ (by decide)
    intro f hf
    simp only [List.mem_singleton] at hf
    subst hf
    exact ⟨⟨"Name", ⟨"title", [("contains", JSVal.str "test")]⟩⟩, by decide⟩

/-- C5: `buildPropValue` (lib/format.js) rejects exactly the stated
invalid classes and accepts everything else: a number value errors iff it
coerces to NaN; a date value errors iff it is neither a real calendar
`YYYY-MM-DD` date nor a valid full ISO-8601 datetime with offset/Z; a url
value errors iff it lacks an `http://`/`https://` prefix; an email value
errors iff it contains no `@`; every other type never errors.  The stated
invalid examples all error and representative valid inputs build payloads. -/
theorem buildPropValue_validation :
    (∀ v, (∃ m, buildPropValue "number" v = .err m) ↔ jsStrToNumber v = .nan) ∧
    (∀ v, (∃ m, buildPropValue "date" v = .err m) ↔ isValidIsoDate v = false) ∧
    (∀ v, (∃ m, buildPropValue "url" v = .err m) ↔
      (jsStartsWith v "http://" = false ∧ jsStartsWith v "https://" = false)) ∧
    (∀ v, (∃ m, buildPropValue "email" v = .err m) ↔ v.toList.contains '@' = false) ∧
    (∀ t v m, buildPropValue t v = .err m →
      t ∈ (["number", "date", "url", "email"] : List String)) ∧
    (∃ m, buildPropValue "number" "abc" = .err m) ∧
    (∃ m, buildPropValue "date" "2024-02-30" = .err m) ∧
    (∃ m, buildPropValue "date" "2024-13-40" = .err m) ∧
    (∃ m, buildPropValue "url" "ftp://x" = .err m) ∧
    (∃ m, buildPropValue "email" "no-at-sign" = .err m) ∧
    buildPropValue "number" "42" = .payload (.number (.num 42)) ∧
    buildPropValue "date" "2024-02-29" = .payload (.date "2024-02-29") ∧
    buildPropValue "date" "2024-01-15T10:30:00Z" =
      .payload (.date "2024-01-15T10:30:00Z") ∧
    buildPropValue "url" "https://example.com" = .payload (.url "https://example.com") ∧
    buildPropValue "email" "user@test.com" = .payload (.email "user@test.com") := by
  refine ⟨?_, ?_, ?_, ?_, ?_, ⟨_, rfl⟩, ⟨_, rfl⟩, ⟨_, rfl⟩, ⟨_, rfl⟩, ⟨_, rfl⟩,
    by decide, by decide, by decide, by decide, by decide⟩
  · intro v
    cases h : jsStrToNumber v <;> simp [buildPropValue, h]
  · intro v
    cases h : isValidIsoDate v <;> simp [buildPropValue, h]
  · intro v
    cases h1 : jsStartsWith v "http://" <;> cases h2 : jsStartsWith v "https://" <;>
      simp [buildPropValue, h1, h2]
  · intro v
    by_cases h : '@' ∈ v.data
    · have hc : v.toList.contains '@' = true := by simpa [String.toList] using h
      simp [buildPropValue, h, hc]
    · have hc : v.toList.contains '@' = false := by simpa [String.toList] using h
      simp [buildPropValue, h, hc]
  · intro t v m h
    rw [buildPropValue.eq_def] at h
    split at h <;> simp_all

/-- Witness for `buildPropValue_validation`: the non-numeric string `abc`
always yields an error for type number. -/
theorem buildPropValue_validation_witness :
    ∃ m, buildPropValue "number" "abc" = .err m :=
  (buildPropValue_validation.1 "abc").mpr (by decide)

/-- Rendering local midnight through `toISOString` shifts the calendar
date back one day for time zones east of UTC and leaves it unchanged at
or west of UTC. -/
theorem utcDay_shift (d tz : Int) (h1 : -1440 < tz) (h2 : tz < 1440) :
    utcDayOfLocalMidnight d tz = d - (if 0 < tz then 1 else 0) := by
  unfold utcDayOfLocalMidnight
  split <;> omega

/-- C9 (amended): `resolveRelativeDate` case-insensitively matches the
keywords `today`, `yesterday`, `tomorrow`, `last_week`/`last-week`,
`next_week`/`next-week` with day offsets 0, −1, +1, −7, +7 from the
current local calendar date, formats the result as `YYYY-MM-DD`, and
returns every non-matching input unchanged — but because the local
midnight instant is rendered through `toISOString` (UTC), the returned
string is the claimed local calendar date only for time zones at or west
of UTC; east of UTC it is one day earlier. -/
theorem resolveRelativeDate_keywords (todayLocal tz : Int) (v : String)
    (h1 : -1440 < tz) (h2 : tz < 1440) :
    (∀ off, kwOffset (jsToLower v) = some off →
      resolveRelativeDate todayLocal tz v =
        formatIsoDate (todayLocal + off - (if 0 < tz then 1 else 0))) ∧
    (kwOffset (jsToLower v) = none → resolveRelativeDate todayLocal tz v = v) ∧
    (tz ≤ 0 → ∀ off, kwOffset (jsToLower v) = some off →
      resolveRelativeDate todayLocal tz v = formatIsoDate (todayLocal + off)) := by
  have key : ∀ off, kwOffset (jsToLower v) = some off →
      resolveRelativeDate todayLocal tz v =
        formatIsoDate (todayLocal + off - (if 0 < tz then 1 else 0)) := by
    intro off hoff
    simp only [kwOffset] at hoff
    simp only [resolveRelativeDate]
    by_cases c1 : jsToLower v = "today"
    · rw [if_pos c1] at hoff
      injection hoff with h5
      subst h5
      rw [if_pos c1, utcDay_shift _ _ h1 h2]
    · by_cases c2 : jsToLower v = "yesterday"
      · rw [if_neg c1, if_pos c2] at hoff
        injection hoff with h5
        subst h5
        rw [if_neg c1, if_pos c2, utcDay_shift _ _ h1 h2]
      · by_cases c3 : jsToLower v = "tomorrow"
        · rw [if_neg c1, if_neg c2, if_pos c3] at hoff
          injection hoff with h5
          subst h5
          rw [if_neg c1, if_neg c2, if_pos c3, utcDay_shift _ _ h1 h2]
        · by_cases c4 : jsToLower v = "last_week" ∨ jsToLower v = "last-week"
          · rw [if_neg c1, if_neg c2, if_neg c3, if_pos c4] at hoff
            injection hoff with h5
            subst h5
            rw [if_neg c1, if_neg c2, if_neg c3, if_pos c4, utcDay_shift _ _ h1 h2]
          · by_cases c5 : jsToLower v = "next_week" ∨ jsToLower v = "next-week"
            · rw [if_neg c1, if_neg c2, if_neg c3, if_neg c4, if_pos c5] at hoff
              injection hoff with h5
              subst h5
              rw [if_neg c1, if_neg c2, if_neg c3, if_neg c4, if_pos c5,
                utcDay_shift _ _ h1 h2]
            · rw [if_neg c1, if_neg c2, if_neg c3, if_neg c4, if_neg c5] at hoff
              cases hoff
  refine ⟨key, ?_, ?_⟩
  · intro hnone
    simp only [kwOffset] at hnone
    by_cases c1 : jsToLower v = "today"
    · simp [c1] at hnone
    by_cases c2 : jsToLower v = "yesterday"
    · simp [c1, c2] at hnone
    by_cases c3 : jsToLower v = "tomorrow"
    · simp [c1, c2, c3] at hnone
    by_cases c4 : jsToLower v = "last_week" ∨ jsToLower v = "last-week"
    · simp [c1, c2, c3, c4] at hnone
    by_cases c5 : jsToLower v = "next_week" ∨ jsToLower v = "next-week"
    · simp [c1, c2, c3, c4, c5] at hnone
    simp only [resolveRelativeDate, if_neg c1, if_neg c2, if_neg c3, if_neg c4, if_neg c5]
  · intro htz off hoff
    have h := key off hoff
    rwa [if_neg (by omega : ¬ (0 < tz)), sub_zero] at h

/-- Witness for `resolveRelativeDate_keywords`: in a zone five hours west
of UTC, `TOMORROW` (case-insensitive) resolves to the next local calendar
date; day 19889 is 2024-06-15. -/
theorem resolveRelativeDate_keywords_witness :
    resolveRelativeDate 19889 (-300) "TOMORROW" = "2024-06-16" := by
  have h := (resolveRelativeDate_keywords 19889 (-300) "TOMORROW" (by norm_num)
    (by norm_num)).2.2 (by norm_num) 1 (by decide)
  exact h.trans (by decide)

/-- Counterexample to C9 as stated: in a zone one hour east of UTC
(offset +60 minutes), `today` on local day 19889 (2024-06-15) resolves to
`2024-06-14` — not the current local calendar date the claim promises. -/
theorem resolveRelativeDate_east_shift :
    resolveRelativeDate 19889 60 "today" = "2024-06-14" ∧
    formatIsoDate 19889 = "2024-06-15" := ⟨by decide, by decide⟩

/-- Joining a list of empty strings yields the empty string. -/
theorem join_all_empty : ∀ (l : List String), (∀ x ∈ l, x = "") → String.join l = "" := by
  intro l
  induction l with
  | nil => intro _; rfl
  | cons x xs ih =>
    intro h
    have hx : x = "" := h x (List.mem_cons_self x xs)
    subst hx
    exact ih (fun y hy => h y (List.mem_cons_of_mem _ hy))

/-- `richTextToPlain` of spans carrying no `plain_text` is empty. -/
theorem richTextToPlain_none (rt : List RichTextItem) (h : ∀ r ∈ rt, r.plain_text = none) :
    richTextToPlain rt = "" := by
  apply join_all_empty
  intro x hx
  simp only [List.mem_map] at hx
  obtain ⟨r, hr, rfl⟩ := hx
  rw [h r hr]
  rfl

/-- Every span produced by one inline-regex match carries no `plain_text`
and has a `text` payload. -/
theorem matchInlineAt_span (cs : List Char) (seg : RichTextItem) (rest : List Char)
    (h : matchInlineAt cs = some (seg, rest)) :
    seg.plain_text = none ∧ seg.text.isSome = true := by
  rw [matchInlineAt.eq_def] at h
  repeat' split at h
  all_goals try cases h
  all_goals exact ⟨rfl, rfl⟩

/-- Every span produced by the inline sweep carries no `plain_text` and
has a `text` payload. -/
theorem inlineGo_span : ∀ (fuel : Nat) (cs acc : List Char), ∀ seg ∈ inlineGo fuel cs acc,
    seg.plain_text = none ∧ seg.text.isSome = true := by
  intro fuel
  induction fuel with
  | zero =>
    intro cs acc seg hseg
    simp only [inlineGo] at hseg
    split at hseg
    · cases hseg
    · simp only [List.mem_singleton] at hseg
      subst hseg
      exact ⟨rfl, rfl⟩
  | succ f ih =>
    intro cs acc seg hseg
    simp only [inlineGo] at hseg
    split at hseg
    · split at hseg
      · cases hseg
      · simp only [List.mem_singleton] at hseg
        subst hseg
        exact ⟨rfl, rfl⟩
    · rename_i c rest
      cases hm : matchInlineAt (c :: rest) with
      | some pr =>
        rw [hm] at hseg
        obtain ⟨s2, rem⟩ := pr
        simp only [List.mem_append, List.mem_cons] at hseg
        rcases hseg with hflush | rfl | hrec
        · split at hflush
          · cases hflush
          · simp only [List.mem_singleton] at hflush
            subst hflush
            exact ⟨rfl, rfl⟩
        · exact matchInlineAt_span (c :: rest) seg rem hm
        · exact ih rem [] seg hrec
      | none =>
        rw [hm] at hseg
        exact ih rest (c :: acc) seg hseg

/-- Every span produced by `parseInlineFormatting` carries no
`plain_text`. -/
theorem parseInline_span (text : String) :
    ∀ item ∈ parseInlineFormatting text, item.plain_text = none ∧ item.text.isSome = true := by
  intro item hitem
  simp only [parseInlineFormatting] at hitem
  split at hitem
  · simp only [List.mem_singleton] at hitem
    subst hitem
    exact ⟨rfl, rfl⟩
  · exact inlineGo_span _ _ _ item hitem

/-- `richTextToPlain` of the inline parser's output is always empty. -/
theorem parseInline_text_empty (text : String) :
    richTextToPlain (parseInlineFormatting text) = "" :=
  richTextToPlain_none _ (fun r hr => (parseInline_span text r hr).1)

/-- Every block the markdown parser produces renders its text as empty
through `richTextToPlain`. -/
theorem mdGo_text_empty : ∀ (fuel : Nat) (lines : List String), ∀ b ∈ mdGo fuel lines,
    richTextToPlain (blockRich b) = "" := by
  intro fuel
  induction fuel with
  | zero => intro lines b hb; cases hb
  | succ f ih =>
    intro lines b hb
    cases lines with
    | nil => cases hb
    | cons line rest =>
      simp only [mdGo] at hb
      split at hb
      · simp only [List.mem_cons] at hb
        rcases hb with rfl | hb
        · apply richTextToPlain_none
          intro r hr
          simp only [blockRich, List.mem_singleton] at hr
          subst hr
          rfl
        · exact ih _ b hb
      · split at hb
        · simp only [List.mem_cons] at hb
          rcases hb with rfl | hb
          · rfl
          · exact ih _ b hb
        · split at hb
          · simp only [List.mem_cons] at hb
            rcases hb with rfl | hb
            · exact parseInline_text_empty _
            · exact ih _ b hb
          · split at hb
            · simp only [List.mem_cons] at hb
              rcases hb with rfl | hb
              · exact parseInline_text_empty _
              · exact ih _ b hb
            · split at hb
              · simp only [List.mem_cons] at hb
                rcases hb with rfl | hb
                · exact parseInline_text_empty _
                · exact ih _ b hb
              · split at hb
                · simp only [List.mem_cons] at hb
                  rcases hb with rfl | hb
                  · exact parseInline_text_empty _
                  · exact ih _ b hb
                · split at hb
                  · simp only [List.mem_cons] at hb
                    rcases hb with rfl | hb
                    · exact parseInline_text_empty _
                    · exact ih _ b hb
                  · split at hb
                    · simp only [List.mem_cons] at hb
                      rcases hb with rfl | hb
                      · exact parseInline_text_empty _
                      · exact ih _ b hb
                    · split at hb
                      · simp only [List.mem_cons] at hb
                        rcases hb with rfl | hb
                        · exact parseInline_text_empty _
                        · exact ih _ b hb
                      · split at hb
                        · exact ih _ b hb
                        · simp only [List.mem_cons] at hb
                          rcases hb with rfl | hb
                          · exact parseInline_text_empty _
                          · exact ih _ b hb

/-- C10: spans produced by `parseInlineFormatting` (and hence by
`markdownToBlocks`) carry their text only in `text.content` and have no
`plain_text` field, while `richTextToPlain` — used by `blocksToMarkdown`
for every text-bearing block — reads only `plain_text`; consequently
rendering the parser's own output yields each block's structural prefix
with empty text content. -/
theorem parse_render_losing_content :
    (∀ text : String, ∀ item ∈ parseInlineFormatting text,
      item.plain_text = none ∧ item.text.isSome = true) ∧
    (∀ rt : List RichTextItem, (∀ r ∈ rt, r.plain_text = none) → richTextToPlain rt = "") ∧
    (∀ md : String, ∀ b ∈ markdownToBlocks md, richTextToPlain (blockRich b) = "") ∧
    blocksToMarkdown (markdownToBlocks "# Title\nHello **bold** world\n- [x] done") =
      "# \n\n- [x] " := by
  refine ⟨parseInline_span, richTextToPlain_none, ?_, by decide⟩
  intro md b hb
  exact mdGo_text_empty _ _ b hb

/-- Witness for `parse_render_losing_content`: the heading block parsed
from `# Title` renders empty text. -/
theorem parse_render_losing_content_witness :
    richTextToPlain (blockRich (Block.heading1 [plainItem "Title"])) = "" :=
  parse_render_losing_content.2.2.1 "# Title" (Block.heading1 [plainItem "Title"]) (by decide)

/-- One unfolding of the pagination loop on an empty upstream. -/
theorem pagLoop_nil (limit : Option Nat) (acc : List α) (c : Option String)
    (b : Option (PageEnv α)) :
    pagLoop limit ([] : List (PageEnv α)) acc c b =
      if limitReached limit acc then ⟨acc, true, c, b⟩ else ⟨acc, false, c, b⟩ := rfl

/-- One unfolding of the pagination loop on a fetched page, no limit. -/
theorem pagLoop_cons_none (p : PageEnv α) (rest : List (PageEnv α)) (acc : List α)
    (c : Option String) (b : Option (PageEnv α)) :
    pagLoop none (p :: rest) acc c b =
      if p.has_more = true then
        pagLoop none rest (acc ++ p.results) (orNull p.next_cursor) (some (b.getD p))
      else ⟨acc ++ p.results, false, orNull p.next_cursor, some (b.getD p)⟩ := rfl

/-- One unfolding of the pagination loop on a fetched page, with a limit:
the loop-top stop, the dead in-page recheck, the mid-page slice, the
boundary stop, the continued fetch and the natural exit, in source
order. -/
theorem pagLoop_cons_some (l : Nat) (p : PageEnv α) (rest : List (PageEnv α)) (acc : List α)
    (c : Option String) (b : Option (PageEnv α)) :
    pagLoop (some l) (p :: rest) acc c b =
      if decide (l ≤ acc.length) = true then ⟨acc, true, c, b⟩
      else if p.results.length ≠ 0 then
        if l - acc.length = 0 then ⟨acc, true, c, some (b.getD p)⟩
        else if l - acc.length < p.results.length then
          ⟨acc ++ p.results.take (l - acc.length), true, orNull p.next_cursor, some (b.getD p)⟩
        else if (decide (l ≤ (acc ++ p.results).length) && p.has_more) = true then
          ⟨acc ++ p.results, true, orNull p.next_cursor, some (b.getD p)⟩
        else if p.has_more = true then
          pagLoop (some l) rest (acc ++ p.results) (orNull p.next_cursor) (some (b.getD p))
        else ⟨acc ++ p.results, false, orNull p.next_cursor, some (b.getD p)⟩
      else if (decide (l ≤ (acc ++ p.results).length) && p.has_more) = true then
        ⟨acc ++ p.results, true, orNull p.next_cursor, some (b.getD p)⟩
      else if p.has_more = true then
        pagLoop (some l) rest (acc ++ p.results) (orNull p.next_cursor) (some (b.getD p))
      else ⟨acc ++ p.results, false, orNull p.next_cursor, some (b.getD p)⟩ := rfl

theorem allResults_cons (p : PageEnv α) (rest : List (PageEnv α)) :
    allResults (p :: rest) = p.results ++ allResults rest := rfl

theorem totalLen_cons (p : PageEnv α) (rest : List (PageEnv α)) :
    totalLen (p :: rest) = p.results.length + totalLen rest := by
  simp [totalLen]

/-- A run with no limit consumes the whole well-formed upstream and never
truncates. -/
theorem pagLoop_nolimit : ∀ (pages : List (PageEnv α)) (acc : List α) (c : Option String)
    (b : Option (PageEnv α)), wfPages pages = true →
    (pagLoop none pages acc c b).results = acc ++ allResults pages ∧
    (pagLoop none pages acc c b).truncated = false := by
  intro pages
  induction pages with
  | nil => intro acc c b hwf; simp [wfPages] at hwf
  | cons p rest ih =>
    intro acc c b hwf
    rw [pagLoop_cons_none]
    cases rest with
    | nil =>
      have hpm : p.has_more = false := by simpa [wfPages] using hwf
      rw [if_neg (by simp [hpm])]
      exact ⟨by simp [allResults_cons, allResults], rfl⟩
    | cons q qs =>
      have hwf2 : p.has_more = true ∧ wfPages (q :: qs) = true := by
        simpa [wfPages, Bool.and_eq_true] using hwf
      rw [if_pos hwf2.1]
      have hres := ih (acc ++ p.results) (orNull p.next_cursor) (some (b.getD p)) hwf2.2
      rw [hres.1]
      exact ⟨by simp [allResults_cons], hres.2⟩

/-- A run whose limit falls strictly inside the upstream data returns
exactly the first `l` results and truncates. -/
theorem pagLoop_overflow (l : Nat) : ∀ (pages : List (PageEnv α)) (acc : List α)
    (c : Option String) (b : Option (PageEnv α)),
    wfPages pages = true → acc.length < l → l < acc.length + totalLen pages →
    (pagLoop (some l) pages acc c b).results =
      acc ++ (allResults pages).take (l - acc.length) ∧
    (pagLoop (some l) pages acc c b).truncated = true := by
  intro pages
  induction pages with
  | nil => intro acc c b hwf; simp [wfPages] at hwf
  | cons p rest ih =>
    intro acc c b hwf hlt hover
    rw [pagLoop_cons_some]
    rw [if_neg (by simp; omega)]
    rw [totalLen_cons] at hover
    by_cases hp0 : p.results.length = 0
    · rw [if_neg (fun hcn => hcn hp0)]
      cases rest with
      | nil =>
        exfalso
        simp [totalLen, hp0] at hover
        omega
      | cons q qs =>
        have hwf2 : p.has_more = true ∧ wfPages (q :: qs) = true := by
          simpa [wfPages, Bool.and_eq_true] using hwf
        rw [if_neg (by simp [hwf2.1, hp0]; omega), if_pos hwf2.1]
        have hres := ih (acc ++ p.results) (orNull p.next_cursor) (some (b.getD p)) hwf2.2
          (by simp [hp0]; omega) (by simp [hp0]; omega)
        rw [hres.1]
        refine ⟨?_, hres.2⟩
        have hpnil : p.results = [] := List.length_eq_zero.mp hp0
        simp [hpnil, allResults_cons]
    · rw [if_pos hp0]
      rw [if_neg (by omega : ¬ (l - acc.length = 0))]
      by_cases hslice : l - acc.length < p.results.length
      · rw [if_pos hslice]
        exact ⟨by rw [allResults_cons, List.take_append_of_le_length (by omega)], rfl⟩
      · rw [if_neg hslice]
        cases rest with
        | nil =>
          exfalso
          simp [totalLen] at hover
          omega
        | cons q qs =>
          have hwf2 : p.has_more = true ∧ wfPages (q :: qs) = true := by
            simpa [wfPages, Bool.and_eq_true] using hwf
          by_cases hb : l ≤ acc.length + p.results.length
          · rw [if_pos (by simp [hwf2.1]; omega)]
            refine ⟨?_, rfl⟩
            rw [allResults_cons, List.take_append_of_le_length (by omega),
              List.take_of_length_le (by omega)]
          · rw [if_neg (by simp [hwf2.1]; omega), if_pos hwf2.1]
            have hres := ih (acc ++ p.results) (orNull p.next_cursor) (some (b.getD p))
              hwf2.2 (by simp; omega) (by simp; omega)
            have harith : l - (acc ++ p.results).length =
                l - acc.length - p.results.length := by
              simp only [List.length_append]
              omega
            rw [hres.1, harith]
            refine ⟨?_, hres.2⟩
            conv_rhs => rw [allResults_cons, List.take_append_eq_append_take]
            rw [List.take_of_length_le
              (show p.results.length ≤ l - acc.length from by omega), List.append_assoc]

/-- A run whose limit is at least the upstream total, and which never
lands exactly on the limit right after a `has_more` page, consumes
everything and does not truncate. -/
theorem pagLoop_fits (l : Nat) : ∀ (pages : List (PageEnv α)) (acc : List α)
    (c : Option String) (b : Option (PageEnv α)),
    wfPages pages = true → acc.length < l → acc.length + totalLen pages ≤ l →
    noBoundaryHit l acc.length pages = true →
    (pagLoop (some l) pages acc c b).results = acc ++ allResults pages ∧
    (pagLoop (some l) pages acc c b).truncated = false := by
  intro pages
  induction pages with
  | nil => intro acc c b hwf; simp [wfPages] at hwf
  | cons p rest ih =>
    intro acc c b hwf hlt hfits hnb
    rw [pagLoop_cons_some]
    rw [if_neg (by simp; omega)]
    rw [totalLen_cons] at hfits
    have hfull :
        ((if (decide (l ≤ (acc ++ p.results).length) && p.has_more) = true then
            (⟨acc ++ p.results, true, orNull p.next_cursor, some (b.getD p)⟩ : LoopOut α)
          else if p.has_more = true then
            pagLoop (some l) rest (acc ++ p.results) (orNull p.next_cursor) (some (b.getD p))
          else ⟨acc ++ p.results, false, orNull p.next_cursor, some (b.getD p)⟩).results =
          acc ++ allResults (p :: rest)) ∧
        ((if (decide (l ≤ (acc ++ p.results).length) && p.has_more) = true then
            (⟨acc ++ p.results, true, orNull p.next_cursor, some (b.getD p)⟩ : LoopOut α)
          else if p.has_more = true then
            pagLoop (some l) rest (acc ++ p.results) (orNull p.next_cursor) (some (b.getD p))
          else ⟨acc ++ p.results, false, orNull p.next_cursor, some (b.getD p)⟩).truncated =
          false) := by
      cases rest with
      | nil =>
        have hpm : p.has_more = false := by simpa [wfPages] using hwf
        rw [if_neg (by simp [hpm]), if_neg (by simp [hpm])]
        exact ⟨by simp [allResults_cons, allResults], rfl⟩
      | cons q qs =>
        have hwf2 : p.has_more = true ∧ wfPages (q :: qs) = true := by
          simpa [wfPages, Bool.and_eq_true] using hwf
        have hnb2 : acc.length + p.results.length < l ∧
            noBoundaryHit l (acc.length + p.results.length) (q :: qs) = true := by
          simpa [noBoundaryHit, hwf2.1, Bool.and_eq_true] using hnb
        rw [if_neg (by simp [hwf2.1]; omega), if_pos hwf2.1]
        have hres := ih (acc ++ p.results) (orNull p.next_cursor) (some (b.getD p)) hwf2.2
          (by simp; omega) (by simp only [List.length_append]; omega)
          (by simpa using hnb2.2)
        rw [hres.1]
        exact ⟨by simp [allResults_cons], hres.2⟩
    by_cases hp0 : p.results.length = 0
    · rw [if_neg (fun hcn => hcn hp0)]
      exact hfull
    · rw [if_pos hp0]
      rw [if_neg (by omega : ¬ (l - acc.length = 0))]
      rw [if_neg (by omega : ¬ (l - acc.length < p.results.length))]
      exact hfull

/-- The fields of `paginate` project onto the loop's output. -/
theorem paginate_proj (pages : List (PageEnv α)) (limit : Option Nat) :
    (paginate pages limit).results = (pagLoop limit pages [] none none).results ∧
    (paginate pages limit).truncated = (pagLoop limit pages [] none none).truncated :=
  ⟨rfl, rfl⟩

/-- C1 (amended): over a well-formed upstream totalling `T` results, a
limit `L < T` returns exactly the first `L` results in order with
`truncated = true`; a limit `L ≥ T` returns all `T` results and, provided
`L ≥ 1` and the running total never equals `L` right after a page still
reporting `has_more` (the claim's "more data existed upstream" test, which
can also fire with only empty pages remaining), `truncated = false` — so
under those provisos `truncated = true` holds exactly when `L < T`; with
no limit, all `T` results are returned untruncated.  The excluded cases
(`L = 0`, or the limit met at a `has_more` boundary) really do report
`truncated = true` even when `L ≥ T` — see the counterexample. -/
theorem paginate_truncation {α : Type} (pages : List (PageEnv α)) (hwf : wfPages pages = true) :
    (∀ l : Nat, l < totalLen pages →
      (paginate pages (some l)).results = (allResults pages).take l ∧
      (paginate pages (some l)).truncated = true) ∧
    (∀ l : Nat, 0 < l → totalLen pages ≤ l → noBoundaryHit l 0 pages = true →
      (paginate pages (some l)).results = allResults pages ∧
      (paginate pages (some l)).truncated = false) ∧
    ((paginate pages none).results = allResults pages ∧
      (paginate pages none).truncated = false) ∧
    (∀ l : Nat, 0 < l → noBoundaryHit l 0 pages = true →
      ((paginate pages (some l)).truncated = true ↔ l < totalLen pages)) := by
  have hp1 : ∀ l : Nat, l < totalLen pages →
      (paginate pages (some l)).results = (allResults pages).take l ∧
      (paginate pages (some l)).truncated = true := by
    intro l hl
    rcases Nat.eq_zero_or_pos l with rfl | hpos
    · cases pages with
      | nil => simp [wfPages] at hwf
      | cons p rest =>
        rw [(paginate_proj (p :: rest) (some 0)).1, (paginate_proj (p :: rest) (some 0)).2,
          pagLoop_cons_some, if_pos (by simp)]
        exact ⟨by simp, rfl⟩
    · have h := pagLoop_overflow l pages [] none none hwf (by simpa using hpos)
        (by simpa using hl)
      rw [(paginate_proj pages (some l)).1, (paginate_proj pages (some l)).2, h.1]
      exact ⟨by simp, h.2⟩
  have hp2 : ∀ l : Nat, 0 < l → totalLen pages ≤ l → noBoundaryHit l 0 pages = true →
      (paginate pages (some l)).results = allResults pages ∧
      (paginate pages (some l)).truncated = false := by
    intro l h0 hle hnb
    have h := pagLoop_fits l pages [] none none hwf (by simpa using h0)
      (by simpa using hle) (by simpa using hnb)
    rw [(paginate_proj pages (some l)).1, (paginate_proj pages (some l)).2, h.1]
    exact ⟨by simp, h.2⟩
  refine ⟨hp1, hp2, ?_, ?_⟩
  · have h := pagLoop_nolimit pages [] none none hwf
    rw [(paginate_proj pages none).1, (paginate_proj pages none).2, h.1]
    exact ⟨by simp, h.2⟩
  · intro l h0 hnb
    constructor
    · intro htr
      by_contra hnl
      have h2 := (hp2 l h0 (by omega) hnb).2
      rw [htr] at h2
      cases h2
    · intro hl
      exact (hp1 l hl).2

/-- Witness for `paginate_truncation`: a two-page upstream totalling 3
results with limit 2 returns the first two results, truncated. -/
theorem paginate_truncation_witness :
    (paginate ([⟨[1, 2], true, some "c", "list"⟩, ⟨[3], false, none, "list"⟩] :
      List (PageEnv Nat)) (some 2)).results = [1, 2] ∧
    (paginate ([⟨[1, 2], true, some "c", "list"⟩, ⟨[3], false, none, "list"⟩] :
      List (PageEnv Nat)) (some 2)).truncated = true := by
  have h := (paginate_truncation ([⟨[1, 2], true, some "c", "list"⟩,
    ⟨[3], false, none, "list"⟩] : List (PageEnv Nat)) (by decide)).1 2 (by decide)
  exact ⟨h.1.trans (by decide), h.2⟩

/-- Counterexample to C1 as stated: two well-formed runs with `L ≥ T`
where `paginate` nevertheless reports `truncated = true` — limit 0 over an
empty upstream (nothing was fetched, no data existed), and limit 1 = T
where the first page completes the limit while still reporting `has_more`
although only an empty page follows. -/
theorem paginate_limit_ge_total_truncated :
    (wfPages ([⟨[], false, none, "list"⟩] : List (PageEnv Nat)) = true ∧
      totalLen ([⟨[], false, none, "list"⟩] : List (PageEnv Nat)) = 0 ∧
      (paginate ([⟨[], false, none, "list"⟩] : List (PageEnv Nat)) (some 0)).truncated =
        true) ∧
    (wfPages ([⟨[7], true, some "c", "list"⟩, ⟨[], false, none, "list"⟩] :
        List (PageEnv Nat)) = true ∧
      totalLen ([⟨[7], true, some "c", "list"⟩, ⟨[], false, none, "list"⟩] :
        List (PageEnv Nat)) = 1 ∧
      (paginate ([⟨[7], true, some "c", "list"⟩, ⟨[], false, none, "list"⟩] :
        List (PageEnv Nat)) (some 1)).results = [7] ∧
      (paginate ([⟨[7], true, some "c", "list"⟩, ⟨[], false, none, "list"⟩] :
        List (PageEnv Nat)) (some 1)).truncated = true) := by
  exact ⟨⟨by decide, by decide, by decide⟩, by decide, by decide, by decide, by decide⟩

/-- Once set, the captured first-page envelope never changes. -/
theorem pagLoop_base_stable (limit : Option Nat) : ∀ (pages : List (PageEnv α))
    (acc : List α) (c : Option String) (e : PageEnv α),
    (pagLoop limit pages acc c (some e)).base = some e := by
  intro pages
  induction pages with
  | nil =>
    intro acc c e
    rw [pagLoop_nil]
    split <;> rfl
  | cons p rest ih =>
    intro acc c e
    cases limit with
    | none =>
      rw [pagLoop_cons_none]
      split
      · exact ih _ _ e
      · rfl
    | some l =>
      rw [pagLoop_cons_some]
      repeat' split
      all_goals first | rfl | exact ih _ _ e

/-- When the first loop iteration fetches (the limit is not already
met), the captured envelope is the first page. -/
theorem pagLoop_base_first (limit : Option Nat) (p : PageEnv α) (rest : List (PageEnv α))
    (acc : List α) (c : Option String) (h : limitReached limit acc = false) :
    (pagLoop limit (p :: rest) acc c none).base = some p := by
  cases limit with
  | none =>
    rw [pagLoop_cons_none]
    split
    · exact pagLoop_base_stable none rest _ _ p
    · rfl
  | some l =>
    simp only [limitReached] at h
    rw [pagLoop_cons_some, if_neg (by simp [h])]
    repeat' split
    all_goals first | rfl | exact pagLoop_base_stable (some l) rest _ _ p

/-- C7 (amended): for every run that fetches at least one page (at least
two pages upstream; limit unset or at least 1), the returned envelope
mirrors the shape of the *first* raw page fetched — not the last — with
its `results` replaced by the accumulated set and `has_more`/`next_cursor`
replaced by the truncation-aware final state: `has_more` equals
`truncated`, and `next_cursor` is the preserved cursor when truncated and
null otherwise. -/
theorem paginate_envelope_first (p1 p2 : PageEnv α) (rest : List (PageEnv α))
    (limit : Option Nat) (hl : limit = none ∨ ∃ l, limit = some l ∧ 1 ≤ l) :
    (paginate (p1 :: p2 :: rest) limit).response.object = p1.object ∧
    (paginate (p1 :: p2 :: rest) limit).response.results =
      (paginate (p1 :: p2 :: rest) limit).results ∧
    (paginate (p1 :: p2 :: rest) limit).response.has_more =
      (paginate (p1 :: p2 :: rest) limit).truncated ∧
    (paginate (p1 :: p2 :: rest) limit).response.next_cursor =
      (paginate (p1 :: p2 :: rest) limit).next_cursor ∧
    (paginate (p1 :: p2 :: rest) limit).has_more =
      (paginate (p1 :: p2 :: rest) limit).truncated ∧
    ((paginate (p1 :: p2 :: rest) limit).truncated = false →
      (paginate (p1 :: p2 :: rest) limit).next_cursor = none) := by
  have hstart : limitReached limit ([] : List α) = false := by
    rcases hl with rfl | ⟨l, rfl, hl1⟩
    · rfl
    · simp [limitReached]
      omega
  have hbase := pagLoop_base_first limit p1 (p2 :: rest) [] none hstart
  refine ⟨?_, rfl, rfl, rfl, rfl, ?_⟩
  · show (((pagLoop limit (p1 :: p2 :: rest) [] none none).base.getD
      { results := [], has_more := false, next_cursor := none }).object) = p1.object
    rw [hbase]
    rfl
  · intro h
    have htr : (pagLoop limit (p1 :: p2 :: rest) [] none none).truncated = false := h
    show (if (pagLoop limit (p1 :: p2 :: rest) [] none none).truncated then
      (pagLoop limit (p1 :: p2 :: rest) [] none none).cursor else none) = none
    rw [htr]
    rfl

/-- Witness for `paginate_envelope_first`: a two-page unlimited run keeps
the first page's residual `object` field in the returned envelope. -/
theorem paginate_envelope_first_witness :
    (paginate ([⟨[1], true, some "c", "A"⟩, ⟨[2], false, none, "B"⟩] :
      List (PageEnv Nat)) none).response.object = "A" := by
  exact (paginate_envelope_first (⟨[1], true, some "c", "A"⟩ : PageEnv Nat)
    ⟨[2], false, none, "B"⟩ [] none (Or.inl rfl)).1

/-- Counterexample to C7 as stated: in a two-page run whose pages carry
distinct residual fields (`object` `"A"` then `"B"`), the returned
envelope carries the *first* page's `"A"`, not the last page's `"B"` the
claim promises. -/
theorem paginate_envelope_not_last :
    (paginate ([⟨[1], true, some "c", "A"⟩, ⟨[2], false, none, "B"⟩] :
      List (PageEnv Nat)) none).response.object = "A" ∧
    (("A" : String) = "B" → False) := ⟨by decide, by decide⟩

end NotionCLI
